import Mathlib

/-!
Verification development for the randombmir audio-tools repository.

The Python source under `src/randombmir_audio_tools/` (and the helper
scripts at repository root) is shallowly embedded below.  Pure string
manipulation is modelled over `List Char` (Python `str` indexing, `len`,
slicing all operate on code points, exactly as `List Char` does); the
file system is modelled as an association list from names to contents;
the external capabilities (whisper transcription, HTTP fetch, the ollama
models) are oracles passed in as explicit parameters.
-/

/-- Characters treated as whitespace by Python `str.strip()` (ASCII range;
the sources only ever manipulate ASCII text around stripping). -/
def pyWhite (c : Char) : Bool :=
  c = ' ' || c = '\t' || c = '\n' || c = '\r' || c = Char.ofNat 11 || c = Char.ofNat 12

/-- `Python: s.strip()` on the underlying character list. -/
def stripL (cs : List Char) : List Char :=
  ((cs.dropWhile pyWhite).reverse.dropWhile pyWhite).reverse

/-- `Python: s.strip()`. -/
def pyStrip (s : String) : String := ⟨stripL s.data⟩

/-- Boolean prefix test on character lists. -/
def prefOf : List Char → List Char → Bool
  | [], _ => true
  | _ :: _, [] => false
  | p :: ps, c :: cs => p = c && prefOf ps cs

theorem prefOf_eq_true_iff {p s : List Char} : prefOf p s = true ↔ p <+: s := by
  induction p generalizing s with
  | nil => simp [prefOf]
  | cons a ps ih =>
    cases s with
    | nil => simp [prefOf]
    | cons c cs =>
      simp [prefOf, ih, List.cons_prefix_cons]

/-- Boolean substring test: does `needle` occur contiguously in `hay`? -/
def subOf (needle : List Char) : List Char → Bool
  | [] => prefOf needle []
  | c :: cs => prefOf needle (c :: cs) || subOf needle cs

/-- Python `str.replace(pat, rep)` (all non-overlapping occurrences, left
to right) on character lists, with explicit fuel so that the recursion is
structural; `listReplace` below supplies fuel that can never run out
(every step consumes at least one character). -/
def listReplaceF (pat rep : List Char) : Nat → List Char → List Char
  | _, [] => []
  | 0, s => s
  | fuel + 1, c :: cs =>
    if pat ≠ [] ∧ prefOf pat (c :: cs) then
      rep ++ listReplaceF pat rep fuel ((c :: cs).drop pat.length)
    else
      c :: listReplaceF pat rep fuel cs

/-- Python `str.replace(pat, rep)` on character lists. -/
def listReplace (pat rep cs : List Char) : List Char :=
  listReplaceF pat rep cs.length cs

/-- Python `str.replace(pat, rep)`. -/
def strReplace (s pat rep : String) : String := ⟨listReplace pat.data rep.data s.data⟩

/-- Python `s.split(sep)` for a single-character separator. -/
def splitChar (sep : Char) : List Char → List (List Char)
  | [] => [[]]
  | c :: cs =>
    match splitChar sep cs with
    | [] => [[]]
    | h :: t => if c = sep then [] :: h :: t else (c :: h) :: t

/-- The lines of a Python string, as produced by `content.split('\n')`. -/
def linesOf (content : String) : List String :=
  (splitChar '\n' content.data).map (⟨·⟩)

/-- Python `s.lower()` (ASCII; `Char.toLower` only affects ASCII letters). -/
def pyLower (s : String) : String := ⟨s.data.map Char.toLower⟩

example : pyStrip "  hi there\n" = "hi there" := by decide
example : listReplace "aa".data "b".data "aaa".data = "ba".data := by decide
example : linesOf "a\nb\n" = ["a", "b", ""] := by decide
example : subOf "sorry".data "i am sorry ok".data = true := by decide
example : pyLower "I'm Sorry" = "i'm sorry" := by decide

/-- Association-list lookup (first match wins); models both the on-disk
directory contents and Python dict lookup for dicts built by prepending. -/
def lookupA {α : Type} : List (String × α) → String → Option α
  | [], _ => none
  | (k, v) :: rest, key => if k = key then some v else lookupA rest key

/-! ## Sentence splitting (`re.split(r'[.!?]+', s)`) -/

/-- Sentence-ending characters of `extract_first_sentence`. -/
def isEnd (c : Char) : Bool := c = '.' || c = '!' || c = '?'

/-- Does the list start with a sentence-ending character? -/
def headIsEnd : List Char → Bool
  | [] => false
  | c :: _ => isEnd c

/-- `re.split(r'[.!?]+', s)`: the pieces between maximal runs of `.`, `!`,
`?`; a leading or trailing run contributes an empty piece. -/
def splitRuns : List Char → List (List Char)
  | [] => [[]]
  | c :: cs =>
    match splitRuns cs with
    | [] => [[]]
    | h :: t =>
      if isEnd c then (if headIsEnd cs then h :: t else [] :: h :: t)
      else (c :: h) :: t

example : splitRuns "I can not believe this happened. It was wild.".data
    = ["I can not believe this happened".data, " It was wild".data, []] := by decide
example : splitRuns "..a.b".data = [[], "a".data, "b".data] := by decide

/-! ## Title generation (`transcribe_audio_local.py`) -/

/-- The shared 50-character hard-truncation step of
`generate_title_from_transcript` (line 232) and `extract_first_sentence`
(line 276): `if len(title) > 50: title = title[:47] + "..."`. -/
def truncate50 (s : String) : String :=
  if 50 < s.data.length then ⟨s.data.take 47 ++ "...".data⟩ else s

/-- The pre-truncation part of `extract_first_sentence`: strip the
transcript, split into sentences, strip the first piece, then
`.replace('\n', ' ').replace('  ', ' ')`. -/
def first_sentence_clean (transcript : String) : String :=
  let s := stripL transcript.data
  let first :=
    match splitRuns s with
    | [] => s          -- `if sentences else transcript.strip()`; unreachable
    | f :: _ => stripL f
  ⟨listReplace "  ".data " ".data (listReplace "\n".data " ".data first)⟩

/-- `extract_first_sentence` (lines 255-279). -/
def extract_first_sentence (transcript : String) : String :=
  truncate50 (first_sentence_clean transcript)

/-- Quote cleanup of an accepted model title (line 231):
`title.replace('"', '').replace("'", "")`. -/
def stripQuotes (s : String) : String :=
  ⟨listReplace [Char.ofNat 39] [] (listReplace ['"'] [] s.data)⟩

/-- The fixed model priority list (lines 196-201). -/
def models_to_try : List String :=
  ["llama3.2:3b", "llama3.1:8b", "mistral:7b", "codellama:7b"]

/-- The refusal phrases checked against the lowercased title (lines 222-226). -/
def refusal_phrases : List String :=
  ["i can not", "i cannot", "i'm unable", "i am unable",
   "i'm sorry", "i am sorry", "i cannot create",
   "i can not create", "i'm not able", "i am not able"]

/-- `any(phrase in title.lower() for phrase in [...])`. -/
def isRefusal (title : String) : Bool :=
  refusal_phrases.any fun p => subOf p.data (pyLower title).data

/-- Outcome of one `requests.post` to a model: an exception (timeout,
connection error, JSON error), or a response with an HTTP status code and
the `response` field of its body. -/
inductive ModelOutcome where
  | exc : ModelOutcome
  | resp (status : Nat) (body : String) : ModelOutcome
deriving DecidableEq

/-- The model fallback loop of `generate_title_from_transcript`
(lines 203-242): first accepted (status 200, non-refusing) response wins,
cleaned and truncated; exceptions, non-200 responses and refusals fall
through to the next model. -/
def tryModels (oracle : String → ModelOutcome) : List String → Option String
  | [] => none
  | m :: ms =>
    match oracle m with
    | .exc => tryModels oracle ms
    | .resp status body =>
      if status = 200 then
        let title := pyStrip body
        if isRefusal title then tryModels oracle ms
        else some (truncate50 (stripQuotes title))
      else tryModels oracle ms

/-- The qualifying-line test of `load_human_titles` (line 554):
`line.strip() and not line.startswith('#') and not line.startswith('[')`. -/
def qualifies (l : String) : Bool :=
  pyStrip l ≠ "" && !prefOf "#".data l.data && !prefOf "[".data l.data

/-- Title extraction from one `.title` file's content (lines 552-562):
the stripped first qualifying line, if non-empty. -/
def extractTitle (content : String) : Option String :=
  match (linesOf content).find? qualifies with
  | some l => let t := pyStrip l; if t ≠ "" then some t else none
  | none => none

/-- `title_file.name.replace('.title', '.mp3')` (line 559). -/
def title_key (name : String) : String := strReplace name ".title" ".mp3"

/-- `load_human_titles` (lines 536-567) over the `.title` files present in
the output directory, given as (name, content) pairs; later files
overwrite earlier ones for the same mp3 key, as with a Python dict. -/
def load_human_titles (files : List (String × String)) : List (String × String) :=
  files.foldl
    (fun acc nc =>
      match extractTitle nc.2 with
      | some t => (title_key nc.1, t) :: acc
      | none => acc)
    []

/-- `f"{filename.replace('.mp3', '')}.title"` (line 290). -/
def title_file_name (filename : String) : String :=
  strReplace filename ".mp3" "" ++ ".title"

/-- The exact template written by `save_title_to_file` (lines 292-308). -/
def title_file_content (filename title transcript : String) : String :=
  "# Title for " ++ filename
    ++ "\n\n## Current Title (from first sentence):\n" ++ title
    ++ "\n\n## Transcript Preview:\n" ++ (⟨transcript.data.take 300⟩ : String)
    ++ "...\n\n## Instructions:"
    ++ "\n- The title above was generated from the first sentence of the transcript"
    ++ "\n- You can edit it to make it more engaging or descriptive"
    ++ "\n- Keep it under 50 characters"
    ++ "\n- Replace the title above with your improved version if desired"
    ++ "\n\n## Your Title:\n" ++ title ++ "\n"

/-- `generate_title_from_transcript` (lines 162-253): human override,
then the model chain, then the first-sentence heuristic.  Returns the
resolved title together with the (name, content) pair that
`save_title_to_file` writes on every path. -/
def generate_title_from_transcript (files : List (String × String))
    (oracle : String → ModelOutcome) (transcript filename : String) :
    String × (String × String) :=
  let human := load_human_titles files
  match lookupA human filename with
  | some t => (t, (title_file_name filename, title_file_content filename t transcript))
  | none =>
    match tryModels oracle models_to_try with
    | some t => (t, (title_file_name filename, title_file_content filename t transcript))
    | none =>
      let fs := extract_first_sentence transcript
      (fs, (title_file_name filename, title_file_content filename fs transcript))

/-! ## Transcription caching (`transcribe_audio`, lines 110-160) -/

/-- The in-memory record stored in `self.transcriptions` (lines 147-151). -/
structure TranscriptRecord where
  transcript : String
  audio_path : String
  transcript_path : String
deriving DecidableEq, Repr

/-- Transcriber state: the output directory's files (name, content)
and the in-memory `self.transcriptions` dict (newest entry first). -/
structure TState where
  disk : List (String × String)
  transcriptions : List (String × TranscriptRecord)
deriving DecidableEq, Repr

/-- `transcribe_audio` (lines 110-160): the whisper capability is an
oracle from filename to transcript (`none` = exception).  Returns the
transcript (or `none` on failure), the new state, and the number of
transcription calls made. -/
def transcribe_audio (whisper : String → Option String) (st : TState)
    (filename : String) : Option String × TState × Nat :=
  let transcript_filename := strReplace filename ".mp3" ".txt"
  match lookupA st.transcriptions filename with
  | some r => (some r.transcript, st, 0)
  | none =>
    match whisper filename with
    | none => (none, st, 1)
    | some t =>
      (some t,
        { disk := (transcript_filename, t) :: st.disk,
          transcriptions :=
            (filename, ⟨t, filename, transcript_filename⟩) :: st.transcriptions },
        1)

/-! ## Pipeline download (`download_audio_file`, lines 74-108) -/

/-- Hexadecimal digit value, for `urllib.parse.unquote`. -/
def hexVal (c : Char) : Option Nat :=
  if '0' ≤ c ∧ c ≤ '9' then some (c.toNat - '0'.toNat)
  else if 'a' ≤ c ∧ c ≤ 'f' then some (c.toNat - 'a'.toNat + 10)
  else if 'A' ≤ c ∧ c ≤ 'F' then some (c.toNat - 'A'.toNat + 10)
  else none

/-- `urllib.parse.unquote` restricted to single-byte (ASCII) percent
escapes; multi-byte UTF-8 escape sequences, which never occur in this
repository's URLs, are left undecoded. -/
def pyUnquoteL : List Char → List Char
  | '%' :: h1 :: h2 :: rest =>
    match hexVal h1, hexVal h2 with
    | some a, some b =>
      if 16 * a + b < 128 then Char.ofNat (16 * a + b) :: pyUnquoteL rest
      else '%' :: h1 :: h2 :: pyUnquoteL rest
    | _, _ => '%' :: pyUnquoteL (h1 :: h2 :: rest)
  | c :: cs => c :: pyUnquoteL cs
  | [] => []

/-- `unquote(url.split('/')[-1])` (line 84). -/
def filenameOfUrl (url : String) : String :=
  ⟨pyUnquoteL ((splitChar '/' url.data).getLastD [])⟩

/-- Outcome of one `requests.get` stream in `download_audio_file`: an
exception before any byte is written, an exception mid-stream (the
partial file stays on disk, since this function has no cleanup), or a
completed body.  `contentLength` is the declared `content-length` header,
which `download_audio_file` never reads. -/
inductive FetchResult where
  | failNoFile : FetchResult
  | failPartial (partialBytes : String) : FetchResult
  | ok (contentLength : Nat) (bytes : String) : FetchResult
deriving DecidableEq

/-- `download_audio_file` (lines 74-108).  Returns the local filename (or
`none` on failure), the new state, and the number of fetch attempts. -/
def download_audio_file (fetch : String → FetchResult) (st : TState)
    (url : String) : Option String × TState × Nat :=
  let filename := filenameOfUrl url
  if (lookupA st.disk filename).isSome then (some filename, st, 0)
  else
    match fetch url with
    | .failNoFile => (none, st, 1)
    | .failPartial p => (none, { st with disk := (filename, p) :: st.disk }, 1)
    | .ok _ bytes => (some filename, { st with disk := (filename, bytes) :: st.disk }, 1)

/-! ## Backup download (`download_backup.py`, `download_file` lines 104-169) -/

/-- Outcome of one backup download: an exception before the file is
created, an exception mid-stream (partial file written, then unlinked by
the except branch), or a completed body of `written` bytes against a
declared `content-length` of `contentLength` (0 when the header is
absent). -/
inductive DlOutcome where
  | excEarly : DlOutcome
  | excMid (written : Nat) : DlOutcome
  | done (contentLength : Nat) (written : Nat) : DlOutcome
deriving DecidableEq

/-- `download_file` (lines 104-169) over a directory mapping path to file
size.  Returns the success flag and the new directory state; states where
a file was written and immediately unlinked are collapsed to the
unchanged directory. -/
def download_file (fs : List (String × Nat)) (path : String)
    (outcome : DlOutcome) : Bool × List (String × Nat) :=
  if (lookupA fs path).isSome then (true, fs)
  else
    match outcome with
    | .excEarly => (false, fs)
    | .excMid _ => (false, fs)
    | .done cl n =>
      if 0 < cl ∧ n ≠ cl then (false, fs)
      else (true, (path, n) :: fs)

/-- The download loop of `process_html_files` (lines 222-231): one
`download_file` call per URL, no retry, failures do not stop the run.
Returns the final directory state and the number of failures. -/
def download_run (oracle : String → DlOutcome) :
    List String → List (String × Nat) → List (String × Nat) × Nat
  | [], fs => (fs, 0)
  | p :: ps, fs =>
    let r := download_file fs p (oracle p)
    let rest := download_run oracle ps r.2
    (rest.1, rest.2 + (if r.1 then 0 else 1))

/-! ## URL extraction (`extract_audio_urls_from_html`, lines 48-72 of
`transcribe_audio_local.py`, identical in `download_backup.py` lines 42-66) -/

/-- Boolean suffix test on character lists. -/
def sfxOf (p s : List Char) : Bool := prefOf p.reverse s.reverse

/-- The literal inside both capture groups:
`https://s3-us-west-1\.amazonaws\.com/randombmir/`. -/
def urlBase : List Char := "https://s3-us-west-1.amazonaws.com/randombmir/".data

/-- `re.findall` for the pattern `attr ++ urlBase ++ [^"]+\.mp3` followed
by a closing quote: at a match, the group is `urlBase ++ R` where `R` is
the run of non-quote characters after the literal, provided `R` ends in
`.mp3`, its `[^"]+` part is nonempty, and the closing quote exists;
scanning resumes after the closing quote.  Fuel keeps the recursion
structural; `scanUrls` supplies fuel that cannot run out. -/
def scanUrlsF (pA : List Char) : Nat → List Char → List (List Char)
  | _, [] => []
  | 0, _ => []
  | fuel + 1, c :: cs =>
    if prefOf pA (c :: cs) then
      let rest := (c :: cs).drop pA.length
      let R := rest.takeWhile (· ≠ '"')
      let r2 := rest.dropWhile (· ≠ '"')
      if 5 ≤ R.length ∧ sfxOf ".mp3".data R ∧ r2 ≠ [] then
        (urlBase ++ R) :: scanUrlsF pA fuel (r2.drop 1)
      else scanUrlsF pA fuel cs
    else scanUrlsF pA fuel cs

/-- All matches of one URL pattern in `content`. -/
def scanUrls (pA content : List Char) : List (List Char) :=
  scanUrlsF pA content.length content

/-- The `src="..."` attribute pattern's literal prefix. -/
def srcAttr : List Char := "src=\"".data ++ urlBase

/-- The `data-audio="..."` attribute pattern's literal prefix. -/
def dataAttr : List Char := "data-audio=\"".data ++ urlBase

/-- `extract_audio_urls_from_html`: union of the two patterns' matches,
deduplicated (set semantics) and sorted (`sorted(list(urls))`). -/
def extract_audio_urls_from_html (content : String) : List String :=
  let m1 := (scanUrls srcAttr content.data).map (⟨·⟩)
  let m2 := (scanUrls dataAttr content.data).map (⟨·⟩)
  List.insertionSort (· ≤ ·) (m1 ++ m2).dedup

/-! ## HTML patching (`update_html_file`, lines 351-389) -/

/-- The literal `data-audio="`. -/
def dqAttr : List Char := "data-audio=\"".data

/-- The literal `</li>`. -/
def liClose : List Char := "</li>".data

/-- The fully-literal part of the second pattern (line 381):
`data-audio="<url>">`. -/
def pre2 (u : List Char) : List Char := dqAttr ++ u ++ "\">".data

/-- The second pattern's replacement (line 382):
`data-audio="<url>"><title></li>`. -/
def repl2 (u t : List Char) : List Char := pre2 u ++ t ++ liClose

/-- One match attempt of `data-audio="<url>">[^<]+</li>` at the head of
`s`: on success returns the remainder of `s` after the match. -/
def tryMatch2 (u s : List Char) : Option (List Char) :=
  if prefOf (pre2 u) s then
    if (s.drop (pre2 u).length).takeWhile (· ≠ '<') ≠ []
        ∧ prefOf liClose ((s.drop (pre2 u).length).dropWhile (· ≠ '<')) then
      some (((s.drop (pre2 u).length).dropWhile (· ≠ '<')).drop 5)
    else none
  else none

theorem tryMatch2_length {u s r : List Char} (h : tryMatch2 u s = some r) :
    r.length < s.length := by
  unfold tryMatch2 at h
  split at h
  case isTrue hp =>
    split at h
    case isTrue hc =>
      have hle : (pre2 u).length ≤ s.length :=
        (prefOf_eq_true_iff.mp hp).length_le
      have h14 : (pre2 u).length = u.length + 14 := by
        have h12 : dqAttr.length = 12 := rfl
        have h2 : ("\">".data).length = 2 := rfl
        simp only [pre2, List.length_append, h12, h2]
        omega
      have hdw : (((s.drop (pre2 u).length).dropWhile (· ≠ '<')).length)
          ≤ s.length - (pre2 u).length := by
        calc (((s.drop (pre2 u).length).dropWhile (· ≠ '<')).length)
            ≤ (s.drop (pre2 u).length).length := (List.dropWhile_sublist _).length_le
          _ = s.length - (pre2 u).length := by simp
      simp only [Option.some.injEq] at h
      subst h
      simp only [List.length_drop]
      omega
    case isFalse => simp at h
  case isFalse => simp at h

/-- `re.sub` for the `data-audio` pattern: left-to-right non-overlapping
matches, scanning resuming after each match. -/
def subst2go (u t s : List Char) : List Char :=
  match s with
  | [] => []
  | c :: cs =>
    match h : tryMatch2 u (c :: cs) with
    | some r => repl2 u t ++ subst2go u t r
    | none => c :: subst2go u t cs
termination_by s.length
decreasing_by
  · exact tryMatch2_length h
  · simp

/-- The first pattern's literal head (line 376):
`<span style="white-space: nowrap;">`. -/
def span1 : List Char := "<span style=\"white-space: nowrap;\">".data

/-- The first pattern's literal tail after the digits:
`<audio controls preload="none"><source src="<url>" type="audio/mpeg">`. -/
def audioMid (u : List Char) : List Char :=
  "<audio controls preload=\"none\"><source src=\"".data ++ u
    ++ "\" type=\"audio/mpeg\">".data

/-- One match attempt of the first pattern at the head of `s`: on success
returns the captured digit run (`\d+`, ASCII digits) and the remainder of
`s` after the match. -/
def tryMatch1 (u s : List Char) : Option (List Char × List Char) :=
  if prefOf span1 s then
    if (s.drop span1.length).takeWhile Char.isDigit ≠ []
        ∧ prefOf (audioMid u) ((s.drop span1.length).dropWhile Char.isDigit) then
      some ((s.drop span1.length).takeWhile Char.isDigit,
        ((s.drop span1.length).dropWhile Char.isDigit).drop (audioMid u).length)
    else none
  else none

/-- The first pattern's replacement (line 377), with the captured digits
reinserted: `<span ...><digits>. <title><audio ...>`. -/
def repl1 (u t ds : List Char) : List Char :=
  span1 ++ ds ++ ". ".data ++ t ++ audioMid u

theorem tryMatch1_length {u s : List Char} {dr : List Char × List Char}
    (h : tryMatch1 u s = some dr) : dr.2.length < s.length := by
  unfold tryMatch1 at h
  split at h
  case isTrue hp =>
    split at h
    case isTrue hc =>
      have hle : span1.length ≤ s.length := (prefOf_eq_true_iff.mp hp).length_le
      have h35 : span1.length = 35 := rfl
      have hdw : ((s.drop span1.length).dropWhile Char.isDigit).length
          ≤ s.length - span1.length := by
        calc ((s.drop span1.length).dropWhile Char.isDigit).length
            ≤ (s.drop span1.length).length := (List.dropWhile_sublist _).length_le
          _ = s.length - span1.length := by simp
      simp only [Option.some.injEq] at h
      subst h
      simp only [List.length_drop]
      omega
    case isFalse => simp at h
  case isFalse => simp at h

/-- `re.sub` for the span/audio-source pattern. -/
def subst1go (u t s : List Char) : List Char :=
  match s with
  | [] => []
  | c :: cs =>
    match h : tryMatch1 u (c :: cs) with
    | some dr => repl1 u t dr.1 ++ subst1go u t dr.2
    | none => c :: subst1go u t cs
termination_by s.length
decreasing_by
  · exact tryMatch1_length h
  · simp

/-- The per-URL body of the patch loop (lines 373-383): the span/audio
substitution followed by the `data-audio` substitution. -/
def applyPair (content : List Char) (u t : List Char) : List Char :=
  subst2go u t (subst1go u t content)

/-- The full patch pass of `update_html_file` over a URL-to-title
mapping (`for url, title in url_to_title.items()`). -/
def update_html_content (mapping : List (String × String)) (content : String) : String :=
  ⟨mapping.foldl (fun c ut => applyPair c ut.1.data ut.2.data) content.data⟩

/-- `update_html_file` (lines 351-389) as a file-system transformer:
read the document (`none` if absent — the Python code would raise), copy
it to `<document>.backup` unless the backup already exists, substitute
titles, and write the document back. -/
def update_html_file (fs : List (String × String)) (html_file : String)
    (mapping : List (String × String)) : Option (List (String × String)) :=
  match lookupA fs html_file with
  | none => none
  | some content =>
    let backup := html_file ++ ".backup"
    let fs1 := if (lookupA fs backup).isSome then fs else (backup, content) :: fs
    some ((html_file, update_html_content mapping content) :: fs1)

/-- One list item of the `data-audio` reference form documented in the
source (line 381): `data-audio="<url>"><text></li>`. -/
def renderItem (it : String × String) : List Char :=
  pre2 it.1.data ++ it.2.data ++ liClose

/-- A document consisting of consecutive `data-audio` list items. -/
def renderItems (items : List (String × String)) : List Char :=
  (items.map renderItem).flatten

/-- URL character-set condition under which the patterns cannot match at
spurious positions: no quote, no angle bracket. -/
def urlOk (u : String) : Prop :=
  '"' ∉ u.data ∧ '<' ∉ u.data ∧ '>' ∉ u.data

/-- Inner-text condition: nonempty (the pattern requires `[^<]+`), no
quote, no `<`. -/
def textOk (x : String) : Prop :=
  x.data ≠ [] ∧ '"' ∉ x.data ∧ '<' ∉ x.data

instance (u : String) : Decidable (urlOk u) := by unfold urlOk; infer_instance
instance (x : String) : Decidable (textOk x) := by unfold textOk; infer_instance

example :
    extract_first_sentence "I can not believe this happened. It was wild."
      = "I can not believe this happened" := by decide
example : isRefusal "I am sorry, I cannot do that" = true := by decide
example : filenameOfUrl "https://s3-us-west-1.amazonaws.com/randombmir/random/01+secret.mp3"
    = "01+secret.mp3" := by decide
example : title_key "01+secret.title" = "01+secret.mp3" := by decide

/-! ## Supporting lemmas -/

theorem lookup_load_human_titles_aux (filename t : String)
    (files : List (String × String)) :
    ∀ acc : List (String × String),
    (∀ nc ∈ files, title_key nc.1 = filename → extractTitle nc.2 = some t) →
    (lookupA acc filename = some t ∨
      ∃ nc ∈ files, title_key nc.1 = filename ∧ extractTitle nc.2 = some t) →
    lookupA (files.foldl
      (fun acc nc =>
        match extractTitle nc.2 with
        | some v => (title_key nc.1, v) :: acc
        | none => acc) acc) filename = some t := by
  induction files with
  | nil =>
    intro acc _ hstart
    rcases hstart with h | ⟨nc, hnc, _⟩
    · simpa using h
    · exact absurd hnc (List.not_mem_nil nc)
  | cons nc fs ih =>
    intro acc hall hstart
    simp only [List.foldl_cons]
    by_cases hk : title_key nc.1 = filename
    · have hex : extractTitle nc.2 = some t := hall nc (by simp) hk
      apply ih
      · intro nc' h' hk'
        exact hall nc' (by simp [h']) hk'
      · left
        rw [hex, hk]
        simp [lookupA]
    · apply ih
      · intro nc' h' hk'
        exact hall nc' (by simp [h']) hk'
      · rcases hstart with h | ⟨nc', hnc', hk', hex'⟩
        · left
          cases hx : extractTitle nc.2 <;> simp [hx, lookupA, hk, h]
        · rcases List.mem_cons.mp hnc' with rfl | hfs
          · exact absurd hk' hk
          · right
            exact ⟨nc', hfs, hk', hex'⟩

/-- If every `.title` file mapping to `filename` extracts the same title
`t`, and at least one such file exists, `load_human_titles` maps
`filename` to `t`. -/
theorem lookup_load_human_titles {files : List (String × String)}
    {filename t : String}
    (hall : ∀ nc ∈ files, title_key nc.1 = filename → extractTitle nc.2 = some t)
    (hex : ∃ nc ∈ files, title_key nc.1 = filename ∧ extractTitle nc.2 = some t) :
    lookupA (load_human_titles files) filename = some t := by
  unfold load_human_titles
  exact lookup_load_human_titles_aux filename t files [] hall (Or.inr hex)

theorem qualifies_strip_ne {l : String} (h : qualifies l = true) :
    pyStrip l ≠ "" := by
  simp only [qualifies, Bool.and_eq_true, decide_eq_true_eq] at h
  exact h.1.1

theorem extractTitle_of_find {content l : String}
    (h : (linesOf content).find? qualifies = some l) :
    extractTitle content = some (pyStrip l) := by
  have hq : qualifies l = true := List.find?_some h
  unfold extractTitle
  rw [h]
  simp [qualifies_strip_ne hq]

/-! ## Claim C1 -/

/-- C1, counterexample.  The claim says a filename whose transcript file
is already on disk is served from cache with no transcription call.  In
the code `transcribe_audio` consults only the in-memory
`self.transcriptions` dict: with `a.txt` on disk holding a cached
transcript and an empty in-memory record set, transcribing `a.mp3` still
invokes the whisper capability (one call) and returns the fresh
transcript, not the cached text. -/
theorem C1_counterexample :
    lookupA (TState.mk [("a.txt", "cached words")] []).disk
        (strReplace "a.mp3" ".mp3" ".txt") = some "cached words"
    ∧ (transcribe_audio (fun _ => some "fresh")
        (TState.mk [("a.txt", "cached words")] []) "a.mp3").2.2 = 1
    ∧ (transcribe_audio (fun _ => some "fresh")
        (TState.mk [("a.txt", "cached words")] []) "a.mp3").1
        ≠ some "cached words" := by decide

/-- C1, amended.  Transcript caching is in-memory only: (1) a filename
present in the in-memory record set is returned from cache with zero
transcription calls and unchanged state; (2) within one run, transcribing
a filename again right after a successful transcription is a cache hit
(zero calls, same transcript, unchanged state) — so a single run never
re-transcribes a filename; (3) downloads are cached by on-disk presence:
a file already on disk is never re-fetched. -/
theorem C1_in_memory_cache_only :
    (∀ (whisper : String → Option String) (st : TState) (filename : String)
        (r : TranscriptRecord),
      lookupA st.transcriptions filename = some r →
      transcribe_audio whisper st filename = (some r.transcript, st, 0))
    ∧ (∀ (whisper : String → Option String) (st : TState) (filename : String)
        (t : String) (st' : TState),
      transcribe_audio whisper st filename = (some t, st', 1) →
      transcribe_audio whisper st' filename = (some t, st', 0))
    ∧ (∀ (fetch : String → FetchResult) (st : TState) (url b : String),
      lookupA st.disk (filenameOfUrl url) = some b →
      download_audio_file fetch st url = (some (filenameOfUrl url), st, 0)) := by
  refine ⟨?_, ?_, ?_⟩
  · intro whisper st filename r h
    simp [transcribe_audio, h]
  · intro whisper st filename t st' h
    unfold transcribe_audio at h
    cases hl : lookupA st.transcriptions filename with
    | some r => rw [hl] at h; simp at h
    | none =>
      rw [hl] at h
      cases hw : whisper filename with
      | none => rw [hw] at h; simp at h
      | some t0 =>
        rw [hw] at h
        simp only [Prod.mk.injEq, Option.some.injEq] at h
        obtain ⟨ht, hst, -⟩ := h
        subst ht
        rw [← hst]
        simp [transcribe_audio, lookupA]
  · intro fetch st url b h
    simp [download_audio_file, h]

/-- C1 witness: concrete instances of each conjunct of
`C1_in_memory_cache_only`. -/
theorem C1_in_memory_cache_only_witness :
    transcribe_audio (fun _ => none)
        (TState.mk [] [("b.mp3", ⟨"tr", "b.mp3", "b.txt"⟩)]) "b.mp3"
      = (some "tr", TState.mk [] [("b.mp3", ⟨"tr", "b.mp3", "b.txt"⟩)], 0)
    ∧ transcribe_audio (fun _ => some "words")
        (TState.mk [("b.txt", "words")] [("b.mp3", ⟨"words", "b.mp3", "b.txt"⟩)]) "b.mp3"
      = (some "words",
         TState.mk [("b.txt", "words")] [("b.mp3", ⟨"words", "b.mp3", "b.txt"⟩)], 0)
    ∧ download_audio_file (fun _ => .failNoFile)
        (TState.mk [("b.mp3", "bytes")] []) "https://h/x/b.mp3"
      = (some "b.mp3", TState.mk [("b.mp3", "bytes")] [], 0) := by
  refine ⟨C1_in_memory_cache_only.1 (fun _ => none)
      (TState.mk [] [("b.mp3", ⟨"tr", "b.mp3", "b.txt"⟩)]) "b.mp3"
      ⟨"tr", "b.mp3", "b.txt"⟩ (by decide), ?_, ?_⟩
  · exact C1_in_memory_cache_only.2.1 (fun _ => some "words")
      (TState.mk [] []) "b.mp3" "words" _ (by decide)
  · have h := C1_in_memory_cache_only.2.2 (fun _ => .failNoFile)
      (TState.mk [("b.mp3", "bytes")] []) "https://h/x/b.mp3" "bytes" (by decide)
    simpa using h

/-! ## Claim C2 -/

/-- C2, counterexample.  The claim says the resolved title equals the
first qualifying line of the side file exactly.  The code strips the
line (`title = line.strip()`, line 556): with side file `a.title` whose
first qualifying line is `" Padded Title "`, the resolved title for
`a.mp3` is the stripped `"Padded Title"`, not the line itself. -/
theorem C2_counterexample :
    (linesOf " Padded Title ").find? qualifies = some " Padded Title "
    ∧ (generate_title_from_transcript [("a.title", " Padded Title ")]
        (fun _ => .exc) "x" "a.mp3").1 ≠ " Padded Title " := by decide

/-- C2, amended.  Human override precedence: for every filename whose
per-filename `.title` side file exists (uniquely, under the
`.title`/`.mp3` renaming) and has a first qualifying line — the first
non-blank line not starting with `#` or `[` — the resolved title is
exactly the *stripped* text of that line, regardless of the transcript
content and regardless of the model oracle's behaviour. -/
theorem C2_human_override_precedence
    (files : List (String × String)) (oracle : String → ModelOutcome)
    (transcript filename name content l : String)
    (hmem : (name, content) ∈ files)
    (hkey : title_key name = filename)
    (huniq : ∀ nc ∈ files, title_key nc.1 = filename → nc = (name, content))
    (hline : (linesOf content).find? qualifies = some l) :
    (generate_title_from_transcript files oracle transcript filename).1 = pyStrip l := by
  have hlk : lookupA (load_human_titles files) filename = some (pyStrip l) := by
    apply lookup_load_human_titles
    · intro nc hnc hk
      rw [huniq nc hnc hk]
      exact extractTitle_of_find hline
    · exact ⟨(name, content), hmem, hkey, extractTitle_of_find hline⟩
  simp [generate_title_from_transcript, hlk]

/-- C2 witness: a concrete populated override file pins the title, with a
refusing/erroring model oracle and an unrelated transcript. -/
theorem C2_human_override_precedence_witness :
    (generate_title_from_transcript [("c.title", "My Pick")] (fun _ => .exc)
      "whatever transcript. more text." "c.mp3").1 = "My Pick" := by
  have h := C2_human_override_precedence [("c.title", "My Pick")] (fun _ => .exc)
    "whatever transcript. more text." "c.mp3" "c.title" "My Pick" "My Pick"
    (by decide) (by decide) (by decide) (by decide)
  rw [h]; decide

/-! ## Model-chain lemmas (claims C3, C4, C8) -/

/-- A model attempt that falls through the chain: an exception, a
non-200 status, or a refusal-phrase response. -/
def modelFails : ModelOutcome → Prop
  | .exc => True
  | .resp status body => status ≠ 200 ∨ isRefusal (pyStrip body) = true

instance (o : ModelOutcome) : Decidable (modelFails o) := by
  cases o with
  | exc => exact isTrue trivial
  | resp status body => exact inferInstanceAs (Decidable (_ ∨ _))

theorem tryModels_cons_fail {oracle : String → ModelOutcome} {m : String}
    (ms : List String) (h : modelFails (oracle m)) :
    tryModels oracle (m :: ms) = tryModels oracle ms := by
  cases ho : oracle m with
  | exc => simp [tryModels, ho]
  | resp status body =>
    rw [ho] at h
    by_cases hs : status = 200
    · rcases h with h' | h'
      · exact absurd hs h'
      · simp [tryModels, ho, hs, h']
    · simp [tryModels, ho, hs]

theorem tryModels_none_of_fails {oracle : String → ModelOutcome}
    {ms : List String} (h : ∀ m ∈ ms, modelFails (oracle m)) :
    tryModels oracle ms = none := by
  induction ms with
  | nil => rfl
  | cons m ms ih =>
    rw [tryModels_cons_fail ms (h m (by simp))]
    exact ih fun m' hm' => h m' (by simp [hm'])

theorem tryModels_cons_accept {oracle : String → ModelOutcome} {m body : String}
    (ms : List String) (ho : oracle m = .resp 200 body)
    (hr : isRefusal (pyStrip body) = false) :
    tryModels oracle (m :: ms) = some (truncate50 (stripQuotes (pyStrip body))) := by
  unfold tryModels
  rw [ho]
  simp [hr]

theorem truncate50_eq_empty_iff (s : String) : truncate50 s = "" ↔ s = "" := by
  unfold truncate50
  split
  case isTrue h =>
    constructor
    · intro he
      have hd : (s.data.take 47 ++ "...".data).length = ("" : String).data.length :=
        congrArg (fun t => t.data.length) he
      rw [List.length_append, List.length_take] at hd
      have h3 : ("...".data).length = 3 := rfl
      have h0 : ("" : String).data.length = 0 := rfl
      omega
    · intro he
      subst he
      simp at h
  case isFalse h => exact Iff.rfl

theorem no_override_all_fail_result {files : List (String × String)}
    {oracle : String → ModelOutcome} {transcript filename : String}
    (hno : lookupA (load_human_titles files) filename = none)
    (hfail : ∀ m ∈ models_to_try, modelFails (oracle m)) :
    (generate_title_from_transcript files oracle transcript filename).1
      = extract_first_sentence transcript := by
  simp [generate_title_from_transcript, hno, tryModels_none_of_fails hfail]

/-! ## Claim C3 -/

/-- C3 (confirmed).  Refusal fallthrough: with no human override for the
filename and every candidate model erroring or responding with a refusal
phrase (case-insensitive substring over the known list), the resolved
title is exactly the heuristic first-sentence extraction of the
transcript; in particular the transcript
`"I can not believe this happened. It was wild."` yields
`"I can not believe this happened"`. -/
theorem C3_refusal_fallthrough :
    (∀ (files : List (String × String)) (oracle : String → ModelOutcome)
        (transcript filename : String),
      lookupA (load_human_titles files) filename = none →
      (∀ m ∈ models_to_try, modelFails (oracle m)) →
      (generate_title_from_transcript files oracle transcript filename).1
        = extract_first_sentence transcript)
    ∧ extract_first_sentence "I can not believe this happened. It was wild."
        = "I can not believe this happened" := by
  exact ⟨fun _ _ _ _ hno hfail => no_override_all_fail_result hno hfail, by decide⟩

/-- C3 witness: all four models respond with a refusal; the resolved
title is the first sentence of the example transcript. -/
theorem C3_refusal_fallthrough_witness :
    (generate_title_from_transcript []
      (fun _ => .resp 200 "I cannot help with that request")
      "I can not believe this happened. It was wild." "a.mp3").1
      = "I can not believe this happened" := by
  have h := C3_refusal_fallthrough.1 []
    (fun _ => .resp 200 "I cannot help with that request")
    "I can not believe this happened. It was wild." "a.mp3"
    (by decide) (by decide)
  exact h.trans C3_refusal_fallthrough.2

/-! ## Claim C4 -/

/-- C4 (confirmed).  Truncation law: the hard-truncation step shared by
generated titles (applied after quote stripping) and heuristic titles
(applied after first-sentence cleanup) leaves texts of at most 50
characters unchanged, and turns any longer text into its first 47
characters followed by `"..."` — length exactly 50, ending in `"..."`.
The last two conjuncts show the accepted-model path stores
`truncate50 (stripQuotes ...)` and the heuristic path stores
`truncate50 (first_sentence_clean ...)`. -/
theorem C4_truncation_law :
    (∀ s : String, s.data.length ≤ 50 → truncate50 s = s)
    ∧ (∀ s : String, 50 < s.data.length →
        truncate50 s = ⟨s.data.take 47 ++ "...".data⟩
        ∧ (truncate50 s).data.length = 50
        ∧ "...".data <:+ (truncate50 s).data)
    ∧ (∀ (oracle : String → ModelOutcome) (m : String) (ms : List String)
        (body : String),
      oracle m = .resp 200 body → isRefusal (pyStrip body) = false →
      tryModels oracle (m :: ms) = some (truncate50 (stripQuotes (pyStrip body))))
    ∧ (∀ transcript : String,
        extract_first_sentence transcript
          = truncate50 (first_sentence_clean transcript)) := by
  refine ⟨?_, ?_, ?_, ?_⟩
  · intro s h
    unfold truncate50
    rw [if_neg (Nat.not_lt.mpr h)]
  · intro s h
    have he : truncate50 s = ⟨s.data.take 47 ++ "...".data⟩ := by
      unfold truncate50
      rw [if_pos h]
    refine ⟨he, ?_, ?_⟩
    · rw [he]
      show (s.data.take 47 ++ "...".data).length = 50
      have h3 : ("...".data).length = 3 := rfl
      rw [List.length_append, List.length_take, h3]
      omega
    · rw [he]
      exact List.suffix_append _ _
  · intro oracle m ms body ho hr
    exact tryModels_cons_accept ms ho hr
  · intro transcript
    rfl

/-- C4 witness: a 60-character title is stored as its first 47
characters plus `"..."` with length exactly 50; a short title is stored
unchanged. -/
theorem C4_truncation_law_witness :
    truncate50 "123456789012345678901234567890123456789012345678901234567890"
      = "12345678901234567890123456789012345678901234567..."
    ∧ (truncate50
        "123456789012345678901234567890123456789012345678901234567890").data.length
      = 50
    ∧ truncate50 "short title" = "short title" := by
  have h1 := C4_truncation_law.2.1
    "123456789012345678901234567890123456789012345678901234567890" (by decide)
  have h2 := C4_truncation_law.1 "short title" (by decide)
  exact ⟨by rw [h1.1]; decide, h1.2.1, h2⟩

/-! ## Claim C8 -/

/-- C8 (confirmed).  Per-model title-generation failures (exception,
non-200 status, refusal) are recoverable: they fall through to the rest
of the model chain.  When, in addition, no human override exists and
every model in the chain fails, the resolution falls back to the
heuristic and produces the empty string exactly when the heuristic
cannot extract any text from the transcript; whenever the heuristic can
extract text, resolution yields a non-empty title. -/
theorem C8_title_failure_aggregate :
    (∀ (oracle : String → ModelOutcome) (m : String) (ms : List String),
      modelFails (oracle m) → tryModels oracle (m :: ms) = tryModels oracle ms)
    ∧ (∀ transcript : String,
        extract_first_sentence transcript = "" ↔ first_sentence_clean transcript = "")
    ∧ (∀ (files : List (String × String)) (oracle : String → ModelOutcome)
        (transcript filename : String),
      lookupA (load_human_titles files) filename = none →
      (∀ m ∈ models_to_try, modelFails (oracle m)) →
      ((generate_title_from_transcript files oracle transcript filename).1 = ""
        ↔ extract_first_sentence transcript = "")
      ∧ (extract_first_sentence transcript ≠ "" →
        (generate_title_from_transcript files oracle transcript filename).1 ≠ "")) := by
  refine ⟨fun oracle m ms h => tryModels_cons_fail ms h,
    fun transcript => truncate50_eq_empty_iff _, ?_⟩
  intro files oracle transcript filename hno hfail
  have hres := @no_override_all_fail_result files oracle transcript filename hno hfail
  rw [hres]
  exact ⟨Iff.rfl, fun h => h⟩

/-- C8 witness: a first mistral-style failure falls through to the rest
of the chain; with all models failing, transcript `"!!!"` (no extractable
text) resolves to the empty title while `"Hello there. Bye."` resolves to
a non-empty one. -/
theorem C8_title_failure_aggregate_witness :
    tryModels (fun _ => .resp 500 "boom") ["llama3.2:3b"]
      = tryModels (fun _ => .resp 500 "boom") []
    ∧ ((generate_title_from_transcript [] (fun _ => .exc) "!!!" "a.mp3").1 = ""
        ↔ extract_first_sentence "!!!" = "")
    ∧ (generate_title_from_transcript [] (fun _ => .exc)
        "Hello there. Bye." "a.mp3").1 ≠ "" := by
  refine ⟨C8_title_failure_aggregate.1 (fun _ => .resp 500 "boom")
      "llama3.2:3b" [] (by decide), ?_, ?_⟩
  · exact (C8_title_failure_aggregate.2.2 [] (fun _ => .exc) "!!!" "a.mp3"
      (by decide) (by decide)).1
  · exact (C8_title_failure_aggregate.2.2 [] (fun _ => .exc)
      "Hello there. Bye." "a.mp3" (by decide) (by decide)).2 (by decide)

/-! ## Claim C5: side-file round trip -/


theorem splitChar_ne_nil (sep : Char) (cs : List Char) : splitChar sep cs ≠ [] := by
  cases cs with
  | nil => simp [splitChar]
  | cons c cs' =>
    cases hsp : splitChar sep cs' with
    | nil => simp [splitChar, hsp]
    | cons h1 t1 =>
      simp only [splitChar, hsp]
      split <;> simp

theorem splitChar_append_sep (sep : Char) (xs ys : List Char) (h : sep ∉ xs) :
    splitChar sep (xs ++ sep :: ys) = xs :: splitChar sep ys := by
  induction xs with
  | nil =>
    cases hsp : splitChar sep ys with
    | nil => exact absurd hsp (splitChar_ne_nil sep ys)
    | cons h1 t1 => simp [splitChar, hsp]
  | cons x xs ih =>
    have hx : x ≠ sep := fun hc => h (by simp [hc])
    have ih' := ih (fun hc => h (by simp [hc]))
    show splitChar sep (x :: (xs ++ sep :: ys)) = (x :: xs) :: splitChar sep ys
    rw [splitChar, ih']
    simp [hx]

theorem qualifies_mk_false_of_hash {l : List Char}
    (h : prefOf "#".data l = true) : qualifies ⟨l⟩ = false := by
  have h' : prefOf ['#'] l = true := h
  simp [qualifies, h']

theorem qualifies_of_props {t : String} (ht_trim : pyStrip t = t) (ht_ne : t ≠ "")
    (hhash : ¬ ("#".data <+: t.data)) (hbr : ¬ ("[".data <+: t.data)) :
    qualifies t = true := by
  have h1 : prefOf "#".data t.data = false := by
    cases hb : prefOf "#".data t.data
    · rfl
    · exact absurd (prefOf_eq_true_iff.mp hb) hhash
  have h2 : prefOf "[".data t.data = false := by
    cases hb : prefOf "[".data t.data
    · rfl
    · exact absurd (prefOf_eq_true_iff.mp hb) hbr
  simp [qualifies, ht_trim, ht_ne, h1, h2]

set_option maxRecDepth 8192 in
theorem find_qualifies_title_file {filename t transcript : String}
    (ht_trim : pyStrip t = t) (ht_ne : t ≠ "")
    (hhash : ¬ ("#".data <+: t.data)) (hbr : ¬ ("[".data <+: t.data))
    (hnl : '\n' ∉ t.data) (hfn_nl : '\n' ∉ filename.data) :
    (linesOf (title_file_content filename t transcript)).find? qualifies = some t := by
  have hdata : (title_file_content filename t transcript).data
      = ("# Title for ".data ++ filename.data)
        ++ '\n' :: (([] : List Char)
        ++ '\n' :: ("## Current Title (from first sentence):".data
        ++ '\n' :: (t.data
        ++ '\n' :: (("\n## Transcript Preview:\n"
              ++ (⟨transcript.data.take 300⟩ : String)
              ++ "...\n\n## Instructions:"
              ++ "\n- The title above was generated from the first sentence of the transcript"
              ++ "\n- You can edit it to make it more engaging or descriptive"
              ++ "\n- Keep it under 50 characters"
              ++ "\n- Replace the title above with your improved version if desired"
              ++ "\n\n## Your Title:\n" ++ t ++ "\n").data)))) := by
    simp [title_file_content, String.data_append, List.append_assoc]
  rw [linesOf, hdata]
  rw [splitChar_append_sep '\n' ("# Title for ".data ++ filename.data) _
    (by
      intro hc
      rcases List.mem_append.mp hc with h | h
      · revert h; decide
      · exact hfn_nl h)]
  rw [splitChar_append_sep '\n' [] _ (by simp)]
  rw [splitChar_append_sep '\n' "## Current Title (from first sentence):".data _
    (by decide)]
  rw [splitChar_append_sep '\n' t.data _ hnl]
  have hq1 : qualifies ⟨"# Title for ".data ++ filename.data⟩ = false :=
    qualifies_mk_false_of_hash
      (prefOf_eq_true_iff.mpr
        ((by decide : "#".data <+: "# Title for ".data).trans
          (List.prefix_append _ _)))
  have hq3 : qualifies ⟨"## Current Title (from first sentence):".data⟩ = false := by
    decide
  have hq4 : qualifies ⟨t.data⟩ = true := by
    rw [show (⟨t.data⟩ : String) = t from rfl]
    exact qualifies_of_props ht_trim ht_ne hhash hbr
  have hn1 : ¬ qualifies (⟨"# Title for ".data ++ filename.data⟩ : String) = true := by
    rw [hq1]; decide
  have hn2 : ¬ qualifies (⟨([] : List Char)⟩ : String) = true := by decide
  have hn3 : ¬ qualifies
      (⟨"## Current Title (from first sentence):".data⟩ : String) = true := by
    rw [hq3]; decide
  simp only [List.map_cons]
  rw [List.find?_cons_of_neg _ hn1, List.find?_cons_of_neg _ hn2,
    List.find?_cons_of_neg _ hn3, List.find?_cons_of_pos _ hq4]

set_option maxRecDepth 32768 in
/-- C5, counterexample.  The claim says saving title `t` and reloading
yields exactly `t` for any non-empty single-line `t` not starting with
`#` or `[`.  `load_human_titles` strips the line it reads back: saving
`"My Title "` (trailing space) for `a.mp3` and reloading maps `a.mp3` to
the stripped `"My Title"`, not to `t`. -/
theorem C5_counterexample :
    lookupA (load_human_titles
      [(title_file_name "a.mp3", title_file_content "a.mp3" "My Title " "x")])
      "a.mp3" = some "My Title"
    ∧ "My Title" ≠ "My Title " := by decide

/-- C5, amended.  Side-file round trip (pinning): for every filename and
every title `t` that is non-blank, single-line, free of surrounding
whitespace (`t.strip() == t`), and does not start with `#` or `[`, after
`save_title_to_file` writes the `.title` file, `load_human_titles`
reading that file back maps the corresponding `.mp3` filename to exactly
`t` — so a persisted title is treated as a human override on the next
run. -/
theorem C5_round_trip_pinning
    (filename t transcript : String)
    (hkey : title_key (title_file_name filename) = filename)
    (ht_trim : pyStrip t = t) (ht_ne : t ≠ "")
    (hhash : ¬ ("#".data <+: t.data)) (hbr : ¬ ("[".data <+: t.data))
    (hnl : '\n' ∉ t.data) (hfn_nl : '\n' ∉ filename.data) :
    lookupA (load_human_titles
      [(title_file_name filename, title_file_content filename t transcript)])
      filename = some t := by
  have hfind := @find_qualifies_title_file filename t transcript
    ht_trim ht_ne hhash hbr hnl hfn_nl
  have hex : extractTitle (title_file_content filename t transcript) = some t := by
    unfold extractTitle
    rw [hfind]
    simp [ht_trim, ht_ne]
  have hload : load_human_titles
      [(title_file_name filename, title_file_content filename t transcript)]
      = [(title_key (title_file_name filename), t)] := by
    unfold load_human_titles
    rw [List.foldl_cons, List.foldl_nil]
    dsimp only
    rw [hex]
  rw [hload, hkey]
  simp [lookupA]

/-- C5 witness: a concrete well-formed title round-trips through the
side file and is pinned for `b.mp3`. -/
theorem C5_round_trip_pinning_witness :
    lookupA (load_human_titles
      [(title_file_name "b.mp3",
        title_file_content "b.mp3" "A Good Title" "Some words here.")]) "b.mp3"
      = some "A Good Title" :=
  C5_round_trip_pinning "b.mp3" "A Good Title" "Some words here."
    (by decide) (by decide) (by decide) (by decide) (by decide) (by decide)
    (by decide)

/-! ## Claim C6: download size handling -/

theorem download_file_preserves {fs : List (String × Nat)} {q : String} {v : Nat}
    (path : String) (o : DlOutcome) (hq : lookupA fs q = some v) :
    lookupA (download_file fs path o).2 q = some v := by
  unfold download_file
  by_cases hp : (lookupA fs path).isSome
  · simp [hp, hq]
  · by_cases hpq : path = q
    · subst hpq
      rw [hq] at hp
      simp at hp
    · cases o with
      | excEarly => simp [hp, hq]
      | excMid n => simp [hp, hq]
      | done cl n =>
        by_cases hm : 0 < cl ∧ n ≠ cl
        · simp [hp, hm, hq]
        · simp [hp, hm, lookupA, hpq, hq]

theorem download_file_other {fs : List (String × Nat)} {q : String}
    (path : String) (o : DlOutcome) (hpq : path ≠ q) :
    lookupA (download_file fs path o).2 q = lookupA fs q := by
  unfold download_file
  by_cases hp : (lookupA fs path).isSome
  · simp [hp]
  · cases o with
    | excEarly => simp [hp]
    | excMid n => simp [hp]
    | done cl n =>
      by_cases hm : 0 < cl ∧ n ≠ cl
      · simp [hp, hm]
      · simp [hp, hm, lookupA, hpq]

theorem download_run_preserves {oracle : String → DlOutcome} {q : String} {v : Nat}
    (paths : List String) (fs : List (String × Nat))
    (hq : lookupA fs q = some v) :
    lookupA (download_run oracle paths fs).1 q = some v := by
  induction paths generalizing fs with
  | nil => simpa [download_run] using hq
  | cons p ps ih =>
    simp only [download_run]
    exact ih _ (download_file_preserves p (oracle p) hq)

/-- C6, counterexample.  The claim covers every download in the run,
including the pipeline's `download_audio_file` (its listed source), and
demands failure plus deletion on a declared-length mismatch.
`download_audio_file` never reads the `content-length` header: a
response declaring 100 bytes whose body is the 5-byte `"12345"` is kept
on disk and reported as success. -/
theorem C6_counterexample :
    download_audio_file (fun _ => .ok 100 "12345") (TState.mk [] [])
        "https://h/r/a.mp3"
      = (some "a.mp3", TState.mk [("a.mp3", "12345")] [], 1)
    ∧ ("12345".data.length : Nat) ≠ 100 := by decide

/-- C6, amended.  For the backup downloader `download_file`: a declared
positive content-length that differs from the bytes written makes the
download fail with the partial file deleted (1); after any failed
download of a previously absent path, no file remains on disk (2); a
mismatch failure does not retry and the run simply continues with the
remaining files (3); and a later file with a matching download still
completes and is on disk at the end of the run (4).  The pipeline's
`download_audio_file` performs no size verification (see the
counterexample). -/
theorem C6_size_mismatch_discard :
    (∀ (fs : List (String × Nat)) (path : String) (cl n : Nat),
      lookupA fs path = none → 0 < cl → n ≠ cl →
      download_file fs path (.done cl n) = (false, fs))
    ∧ (∀ (fs : List (String × Nat)) (path : String) (o : DlOutcome),
      lookupA fs path = none → (download_file fs path o).1 = false →
      lookupA (download_file fs path o).2 path = none)
    ∧ (∀ (oracle : String → DlOutcome) (fs : List (String × Nat))
        (p : String) (ps : List String) (cl n : Nat),
      lookupA fs p = none → oracle p = .done cl n → 0 < cl → n ≠ cl →
      download_run oracle (p :: ps) fs
        = ((download_run oracle ps fs).1, (download_run oracle ps fs).2 + 1))
    ∧ (∀ (oracle : String → DlOutcome) (fs : List (String × Nat))
        (paths : List String) (q : String) (n : Nat),
      q ∈ paths → oracle q = .done n n → lookupA fs q = none →
      lookupA (download_run oracle paths fs).1 q = some n) := by
  have h1 : ∀ (fs : List (String × Nat)) (path : String) (cl n : Nat),
      lookupA fs path = none → 0 < cl → n ≠ cl →
      download_file fs path (.done cl n) = (false, fs) := by
    intro fs path cl n hnone hcl hne
    simp [download_file, hnone, hcl, hne]
  refine ⟨h1, ?_, ?_, ?_⟩
  · intro fs path o hnone hfail
    unfold download_file at hfail ⊢
    by_cases hp : (lookupA fs path).isSome
    · simp [hp] at hfail
    · cases o with
      | excEarly => simp [hp, hnone]
      | excMid n => simp [hp, hnone]
      | done cl n =>
        by_cases hm : 0 < cl ∧ n ≠ cl
        · simp [hp, hm, hnone]
        · simp [hp, hm] at hfail
  · intro oracle fs p ps cl n hnone ho hcl hne
    simp only [download_run]
    rw [ho, h1 fs p cl n hnone hcl hne]
    simp
  · intro oracle fs paths q n hmem ho hnone
    induction paths generalizing fs with
    | nil => exact absurd hmem (List.not_mem_nil q)
    | cons p ps ih =>
      by_cases hpq : p = q
      · subst hpq
        simp only [download_run]
        have hstep : lookupA (download_file fs p (oracle p)).2 p = some n := by
          rw [ho]
          simp [download_file, hnone, lookupA]
        exact download_run_preserves ps _ hstep
      · simp only [download_run]
        rcases List.mem_cons.mp hmem with h | h
        · exact absurd h.symm hpq
        · exact ih ((download_file fs p (oracle p)).2) h
            (by rw [download_file_other p (oracle p) hpq]; exact hnone)

/-- C6 witness: a mismatched download (declared 10 bytes, wrote 5) is
discarded and failed, the directory is unchanged, the run continues and
a later matching 3-byte download completes. -/
theorem C6_size_mismatch_discard_witness :
    download_file [] "bad.mp3" (.done 10 5) = (false, [])
    ∧ lookupA (download_file [] "bad.mp3" (.done 10 5)).2 "bad.mp3" = none
    ∧ download_run (fun u => if u = "bad.mp3" then .done 10 5 else .done 3 3)
        ["bad.mp3", "good.mp3"] []
      = ((download_run (fun u => if u = "bad.mp3" then .done 10 5 else .done 3 3)
          ["good.mp3"] []).1,
         (download_run (fun u => if u = "bad.mp3" then .done 10 5 else .done 3 3)
          ["good.mp3"] []).2 + 1)
    ∧ lookupA (download_run (fun u => if u = "bad.mp3" then .done 10 5 else .done 3 3)
        ["bad.mp3", "good.mp3"] []).1 "good.mp3" = some 3 := by
  refine ⟨C6_size_mismatch_discard.1 [] "bad.mp3" 10 5 (by decide) (by decide)
      (by decide), ?_, ?_, ?_⟩
  · exact C6_size_mismatch_discard.2.1 [] "bad.mp3" (.done 10 5) (by decide)
      (by decide)
  · exact C6_size_mismatch_discard.2.2.1
      (fun u => if u = "bad.mp3" then .done 10 5 else .done 3 3) [] "bad.mp3"
      ["good.mp3"] 10 5 (by decide) (by decide) (by decide) (by decide)
  · exact C6_size_mismatch_discard.2.2.2
      (fun u => if u = "bad.mp3" then .done 10 5 else .done 3 3) []
      ["bad.mp3", "good.mp3"] "good.mp3" 3 (by decide) (by decide) (by decide)

/-! ## Claim C7: backup write-once -/

theorem backup_name_ne (f : String) : f ++ ".backup" ≠ f := by
  intro h
  have hlen : f.data.length + (".backup".data).length = f.data.length := by
    have h2 := congrArg (fun s : String => s.data.length) h
    simpa [String.data_append] using h2
  rw [show (".backup".data).length = 7 from rfl] at hlen
  omega

theorem update_html_file_no_backup {fs : List (String × String)} {f c : String}
    (m : List (String × String)) (hc : lookupA fs f = some c)
    (hb : lookupA fs (f ++ ".backup") = none) :
    update_html_file fs f m
      = some ((f, update_html_content m c) :: (f ++ ".backup", c) :: fs) := by
  simp [update_html_file, hc, hb]

theorem update_html_file_with_backup {fs : List (String × String)} {f c b : String}
    (m : List (String × String)) (hc : lookupA fs f = some c)
    (hb : lookupA fs (f ++ ".backup") = some b) :
    update_html_file fs f m = some ((f, update_html_content m c) :: fs) := by
  simp [update_html_file, hc, hb]

/-- C7 (confirmed).  Backup write-once: when no backup exists,
`update_html_file` copies the document's current text verbatim to
`<document>.backup` (1); when a backup exists the document is patched
without touching the backup (2); and across two consecutive patch runs
over the same document the backup after the second run equals the backup
after the first (3). -/
theorem C7_backup_write_once :
    (∀ (fs : List (String × String)) (f : String)
        (m : List (String × String)) (c : String),
      lookupA fs f = some c → lookupA fs (f ++ ".backup") = none →
      update_html_file fs f m
        = some ((f, update_html_content m c) :: (f ++ ".backup", c) :: fs)
      ∧ lookupA ((f, update_html_content m c) :: (f ++ ".backup", c) :: fs)
          (f ++ ".backup") = some c)
    ∧ (∀ (fs : List (String × String)) (f : String)
        (m : List (String × String)) (c b : String),
      lookupA fs f = some c → lookupA fs (f ++ ".backup") = some b →
      update_html_file fs f m = some ((f, update_html_content m c) :: fs)
      ∧ lookupA ((f, update_html_content m c) :: fs) (f ++ ".backup") = some b)
    ∧ (∀ (fs fs₁ fs₂ : List (String × String)) (f : String)
        (m m₂ : List (String × String)),
      update_html_file fs f m = some fs₁ →
      update_html_file fs₁ f m₂ = some fs₂ →
      lookupA fs₂ (f ++ ".backup") = lookupA fs₁ (f ++ ".backup")) := by
  refine ⟨?_, ?_, ?_⟩
  · intro fs f m c hc hb
    have hne : f ≠ f ++ ".backup" := Ne.symm (backup_name_ne f)
    exact ⟨update_html_file_no_backup m hc hb, by simp [lookupA, hne]⟩
  · intro fs f m c b hc hb
    have hne : f ≠ f ++ ".backup" := Ne.symm (backup_name_ne f)
    exact ⟨update_html_file_with_backup m hc hb, by simp [lookupA, hne, hb]⟩
  · intro fs fs₁ fs₂ f m m₂ h1 h2
    have hne : f ≠ f ++ ".backup" := Ne.symm (backup_name_ne f)
    cases hc : lookupA fs f with
    | none => rw [update_html_file, hc] at h1; simp at h1
    | some c =>
      cases hbo : lookupA fs (f ++ ".backup") with
      | some b =>
        rw [update_html_file_with_backup m hc hbo] at h1
        have hfs₁ : fs₁ = (f, update_html_content m c) :: fs := by
          simpa using h1.symm
        subst hfs₁
        have hc1 : lookupA ((f, update_html_content m c) :: fs) f
            = some (update_html_content m c) := by simp [lookupA]
        have hb1 : lookupA ((f, update_html_content m c) :: fs) (f ++ ".backup")
            = some b := by simp [lookupA, hne, hbo]
        rw [update_html_file_with_backup m₂ hc1 hb1] at h2
        have hfs₂ : fs₂ = (f, update_html_content m₂ (update_html_content m c))
            :: (f, update_html_content m c) :: fs := by simpa using h2.symm
        subst hfs₂
        simp [lookupA, hne]
      | none =>
        rw [update_html_file_no_backup m hc hbo] at h1
        have hfs₁ : fs₁ = (f, update_html_content m c)
            :: (f ++ ".backup", c) :: fs := by simpa using h1.symm
        subst hfs₁
        have hc1 : lookupA ((f, update_html_content m c)
              :: (f ++ ".backup", c) :: fs) f
            = some (update_html_content m c) := by simp [lookupA]
        have hb1 : lookupA ((f, update_html_content m c)
              :: (f ++ ".backup", c) :: fs) (f ++ ".backup") = some c := by
          simp [lookupA, hne]
        rw [update_html_file_with_backup m₂ hc1 hb1] at h2
        have hfs₂ : fs₂ = (f, update_html_content m₂ (update_html_content m c))
            :: (f, update_html_content m c) :: (f ++ ".backup", c) :: fs := by
          simpa using h2.symm
        subst hfs₂
        simp [lookupA, hne]

/-- C7 witness: patching a concrete one-document file system; the backup
holds the original text verbatim. -/
theorem C7_backup_write_once_witness :
    update_html_file [("index.html", "original text")] "index.html" []
      = some [("index.html", update_html_content [] "original text"),
              ("index.html.backup", "original text"),
              ("index.html", "original text")]
    ∧ lookupA [("index.html", update_html_content [] "original text"),
              ("index.html.backup", "original text"),
              ("index.html", "original text")] ("index.html" ++ ".backup")
      = some "original text" := by
  have h := C7_backup_write_once.1 [("index.html", "original text")]
    "index.html" [] "original text" (by decide) (by decide)
  have he : ("index.html" ++ ".backup" : String) = "index.html.backup" := by decide
  rw [← he]
  exact ⟨h.1, h.2⟩

/-! ## Claim C9: patcher frame property

The no-match analysis for the `data-audio` pattern rests on where the
quote characters of a rendered document can sit: URLs and inner texts
are quote-free, so every quote belongs to the surrounding markup. -/

theorem prefOf_append_same (A l₁ l₂ : List Char) :
    prefOf (A ++ l₁) (A ++ l₂) = prefOf l₁ l₂ := by
  induction A with
  | nil => rfl
  | cons a A ih => simp [prefOf, ih]

theorem prefOf_append_self (A Y : List Char) : prefOf A (A ++ Y) = true :=
  prefOf_eq_true_iff.mpr (List.prefix_append A Y)

theorem not_pref_url {u v : List Char} (huv : u ≠ v)
    (hu : '"' ∉ u) (hv : '"' ∉ v) (a b : List Char) :
    prefOf (u ++ '"' :: a) (v ++ '"' :: b) = false := by
  induction u generalizing v with
  | nil =>
    cases v with
    | nil => exact absurd rfl huv
    | cons c v' =>
      have : ¬('"' = c) := fun h => hv (by simp [← h])
      simp [prefOf, this]
  | cons c u' ih =>
    cases v with
    | nil =>
      have : ¬(c = '"') := fun h => hu (by simp [h])
      simp [prefOf, this]
    | cons d v' =>
      by_cases hcd : c = d
      · subst hcd
        have : u' ≠ v' := fun h => huv (by rw [h])
        simp [prefOf, ih this (fun h => hu (by simp [h])) (fun h => hv (by simp [h]))]
      · simp [prefOf, hcd]

theorem not_pref_quote_block {P σ u : List Char}
    (hP : '"' ∉ P) (hσ : '"' ∉ σ) (hgt : '>' ∉ u) (T : List Char) :
    prefOf (P ++ '"' :: (u ++ '"' :: '>' :: [])) (σ ++ '"' :: '>' :: T) = false := by
  induction P generalizing σ with
  | nil =>
    cases σ with
    | nil =>
      cases u with
      | nil => simp [prefOf]
      | cons c u' =>
        have : ¬(c = '>') := fun h => hgt (by simp [h])
        simp [prefOf, this]
    | cons c σ' =>
      have : ¬('"' = c) := fun h => hσ (by simp [← h])
      simp [prefOf, this]
  | cons p P' ih =>
    cases σ with
    | nil =>
      have : ¬(p = '"') := fun h => hP (by simp [h])
      simp [prefOf, this]
    | cons c σ' =>
      by_cases hpc : p = c
      · subst hpc
        have hP' : '"' ∉ P' := fun h => hP (List.mem_cons_of_mem _ h)
        have hσ' : '"' ∉ σ' := fun h => hσ (List.mem_cons_of_mem _ h)
        simp [prefOf, ih hP' hσ']
      · simp [prefOf, hpc]

theorem not_pref_terminated {P ξ : List Char} {a b : Char} (hab : a ≠ b)
    (ha : a ∉ ξ) (hb : b ∉ P) (R T : List Char) :
    prefOf (P ++ a :: R) (ξ ++ b :: T) = false := by
  induction P generalizing ξ with
  | nil =>
    cases ξ with
    | nil => simp [prefOf, hab]
    | cons c ξ' =>
      have : ¬(a = c) := fun h => ha (by simp [h])
      simp [prefOf, this]
  | cons p P' ih =>
    cases ξ with
    | nil =>
      have : ¬(p = b) := fun h => hb (by simp [h])
      simp [prefOf, this]
    | cons c ξ' =>
      by_cases hpc : p = c
      · subst hpc
        have ha' : a ∉ ξ' := fun h => ha (List.mem_cons_of_mem _ h)
        have hb' : b ∉ P' := fun h => hb (List.mem_cons_of_mem _ h)
        simp [prefOf, ih ha' hb']
      · simp [prefOf, hpc]

theorem pre2_cons (u : List Char) :
    pre2 u = 'd' :: 'a' :: 't' :: 'a' :: '-' :: 'a' :: 'u' :: 'd' :: 'i' :: 'o'
      :: '=' :: '"' :: (u ++ '"' :: '>' :: []) := rfl

theorem tryMatch2_none_of_pref_false {u s : List Char}
    (h : prefOf (pre2 u) s = false) : tryMatch2 u s = none := by
  simp [tryMatch2, h]

theorem tryMatch2_none_of_head_ne_d {u : List Char} {c : Char} (hc : c ≠ 'd')
    (T : List Char) : tryMatch2 u (c :: T) = none := by
  apply tryMatch2_none_of_pref_false
  rw [pre2_cons]
  have : ¬('d' = c) := fun h => hc h.symm
  simp [prefOf, this]

theorem subst2go_nil (u t : List Char) : subst2go u t [] = [] := by
  rw [subst2go]

theorem subst2go_cons_none {u : List Char} (t : List Char) {c : Char}
    {cs : List Char} (h : tryMatch2 u (c :: cs) = none) :
    subst2go u t (c :: cs) = c :: subst2go u t cs := by
  rw [subst2go, h]

theorem subst2go_cons_some {u : List Char} (t : List Char) {c : Char}
    {cs r : List Char} (h : tryMatch2 u (c :: cs) = some r) :
    subst2go u t (c :: cs) = repl2 u t ++ subst2go u t r := by
  rw [subst2go, h]

theorem subst2go_skip_block {u : List Char} (t : List Char)
    (blk rest : List Char)
    (H : ∀ pre suf, blk = pre ++ suf → suf ≠ [] → tryMatch2 u (suf ++ rest) = none) :
    subst2go u t (blk ++ rest) = blk ++ subst2go u t rest := by
  induction blk with
  | nil => simp
  | cons c bs ih =>
    have h0 : tryMatch2 u (c :: (bs ++ rest)) = none := by
      have := H [] (c :: bs) rfl (by simp)
      simpa using this
    rw [List.cons_append, subst2go_cons_none t h0]
    have ih' := ih (fun pre suf hsplit hne =>
      H (c :: pre) suf (by rw [hsplit]; rfl) hne)
    rw [ih', List.cons_append]

theorem suffix_append_cases {α : Type} {s l₁ l₂ : List α} (h : s <:+ l₁ ++ l₂) :
    s <:+ l₂ ∨ ∃ s₁, s₁ ≠ [] ∧ s₁ <:+ l₁ ∧ s = s₁ ++ l₂ := by
  obtain ⟨t, ht⟩ := h
  rcases List.append_eq_append_iff.mp ht with ⟨a, ha1, ha2⟩ | ⟨c, hc1, hc2⟩
  · rcases eq_or_ne a [] with rfl | hne
    · left
      simp only [List.nil_append] at ha2
      rw [ha2]
    · right
      exact ⟨a, hne, ⟨t, ha1.symm⟩, ha2⟩
  · left
    exact ⟨c, hc2.symm⟩

theorem pre2_eq (u : List Char) :
    pre2 u = "data-audio=".data ++ '"' :: (u ++ '"' :: '>' :: []) := rfl

theorem tryMatch2_none_of_second_ne {u : List Char} {c2 : Char}
    (hc2 : c2 ≠ 'a') (T : List Char) : tryMatch2 u ('d' :: c2 :: T) = none := by
  apply tryMatch2_none_of_pref_false
  rw [pre2_cons]
  simp [prefOf, Ne.symm hc2]

theorem tryMatch2_none_in_item {u v x : List Char} (rest : List Char)
    (hu_q : '"' ∉ u) (hu_gt : '>' ∉ u) (hv_q : '"' ∉ v)
    (hx_q : '"' ∉ x) (huv : u ≠ v)
    {suf : List Char}
    (hsuf : suf <:+ dqAttr ++ (v ++ ('"' :: '>' :: (x ++ liClose))))
    (hne : suf ≠ []) :
    tryMatch2 u (suf ++ rest) = none := by
  rcases suffix_append_cases hsuf with hA | ⟨π, hπne, hπ, rfl⟩
  · -- inside the URL, the quote-bracket, the text, or the closing tag
    rcases suffix_append_cases hA with hA1 | ⟨σ, hσne, hσ, rfl⟩
    · -- at or after the closing quote-bracket of the URL
      have hA1' : suf <:+ ('"' :: '>' :: []) ++ (x ++ liClose) := hA1
      rcases suffix_append_cases hA1' with hA2 | ⟨g, hgne, hg, rfl⟩
      · -- inside the text or the closing tag
        rcases suffix_append_cases hA2 with hE | ⟨ξ, hξne, hξ, rfl⟩
        · -- inside `</li>`
          have hmem := (List.mem_tails _ _).mpr hE
          have htails : List.tails liClose
              = ["</li>".data, "/li>".data, "li>".data, "i>".data, ">".data, []] := by
            decide
          rw [htails] at hmem
          simp only [List.mem_cons, List.not_mem_nil, or_false] at hmem
          rcases hmem with rfl | rfl | rfl | rfl | rfl | rfl
          · exact tryMatch2_none_of_head_ne_d (by decide) _
          · exact tryMatch2_none_of_head_ne_d (by decide) _
          · exact tryMatch2_none_of_head_ne_d (by decide) _
          · exact tryMatch2_none_of_head_ne_d (by decide) _
          · exact tryMatch2_none_of_head_ne_d (by decide) _
          · exact absurd rfl hne
        · -- inside the inner text
          have hξq : '"' ∉ ξ := fun h => hx_q (hξ.sublist.subset h)
          apply tryMatch2_none_of_pref_false
          rw [pre2_eq, List.append_assoc]
          exact not_pref_terminated (by decide) hξq (by decide) _ _
      · -- at the `">` bracket
        have hmem := (List.mem_tails _ _).mpr hg
        have htails : List.tails ('"' :: '>' :: [])
            = [['"', '>'], ['>'], []] := by decide
        rw [htails] at hmem
        simp only [List.mem_cons, List.not_mem_nil, or_false] at hmem
        rcases hmem with rfl | rfl | rfl
        · exact tryMatch2_none_of_head_ne_d (by decide) _
        · exact tryMatch2_none_of_head_ne_d (by decide) _
        · exact absurd rfl hgne
    · -- inside the URL (proper suffix σ of v)
      have hσq : '"' ∉ σ := fun h => hv_q (hσ.sublist.subset h)
      apply tryMatch2_none_of_pref_false
      rw [pre2_eq, List.append_assoc]
      exact not_pref_quote_block (by decide) hσq hu_gt _
  · -- inside the `data-audio="` attribute head (suffix π of dqAttr)
    have hmem := (List.mem_tails _ _).mpr hπ
    have htails : List.tails dqAttr
        = ["data-audio=\"".data, "ata-audio=\"".data, "ta-audio=\"".data,
           "a-audio=\"".data, "-audio=\"".data, "audio=\"".data, "udio=\"".data,
           "dio=\"".data, "io=\"".data, "o=\"".data, "=\"".data, "\"".data, []] := by
      decide
    rw [htails] at hmem
    simp only [List.mem_cons, List.not_mem_nil, or_false] at hmem
    rcases hmem with rfl | rfl | rfl | rfl | rfl | rfl | rfl | rfl | rfl | rfl
      | rfl | rfl | rfl
    · -- the whole item head: a match here would need u = v
      apply tryMatch2_none_of_pref_false
      have hshape : ("data-audio=\"".data ++ (v ++ ('"' :: '>' :: (x ++ liClose)))) ++ rest
          = "data-audio=\"".data ++ (v ++ '"' :: ('>' :: ((x ++ liClose) ++ rest))) := by
        simp [List.append_assoc]
      rw [hshape,
        show pre2 u = "data-audio=\"".data ++ (u ++ '"' :: ('>' :: [])) from rfl,
        prefOf_append_same]
      exact not_pref_url huv hu_q hv_q _ _
    · exact tryMatch2_none_of_head_ne_d (by decide) _
    · exact tryMatch2_none_of_head_ne_d (by decide) _
    · exact tryMatch2_none_of_head_ne_d (by decide) _
    · exact tryMatch2_none_of_head_ne_d (by decide) _
    · exact tryMatch2_none_of_head_ne_d (by decide) _
    · exact tryMatch2_none_of_head_ne_d (by decide) _
    · exact tryMatch2_none_of_second_ne (by decide) _
    · exact tryMatch2_none_of_head_ne_d (by decide) _
    · exact tryMatch2_none_of_head_ne_d (by decide) _
    · exact tryMatch2_none_of_head_ne_d (by decide) _
    · exact tryMatch2_none_of_head_ne_d (by decide) _
    · exact absurd rfl hπne

theorem str_data_inj {a b : String} (h : a.data = b.data) : a = b :=
  congrArg String.mk h

theorem subst2go_match {u t s r : List Char} (h : tryMatch2 u s = some r)
    (hs : s ≠ []) : subst2go u t s = repl2 u t ++ subst2go u t r := by
  cases s with
  | nil => cases hs rfl
  | cons c cs => exact subst2go_cons_some t h

theorem takeWhile_append_lt {x : List Char} (hx : '<' ∉ x) (T : List Char) :
    (x ++ '<' :: T).takeWhile (· ≠ '<') = x := by
  induction x with
  | nil => simp
  | cons c x' ih =>
    have hc : c ≠ '<' := fun h => hx (by simp [h])
    have hx' : '<' ∉ x' := fun h => hx (by simp [h])
    rw [List.cons_append, List.takeWhile_cons_of_pos (by simpa using hc), ih hx']

theorem dropWhile_append_lt {x : List Char} (hx : '<' ∉ x) (T : List Char) :
    (x ++ '<' :: T).dropWhile (· ≠ '<') = '<' :: T := by
  induction x with
  | nil => simp
  | cons c x' ih =>
    have hc : c ≠ '<' := fun h => hx (by simp [h])
    have hx' : '<' ∉ x' := fun h => hx (by simp [h])
    rw [List.cons_append, List.dropWhile_cons_of_pos (by simpa using hc), ih hx']

theorem tryMatch2_item_head {u x : List Char} (rest : List Char)
    (hx_ne : x ≠ []) (hx_lt : '<' ∉ x) :
    tryMatch2 u (pre2 u ++ (x ++ (liClose ++ rest))) = some rest := by
  unfold tryMatch2
  rw [prefOf_append_self]
  rw [if_pos rfl, List.drop_left]
  have hE : liClose ++ rest = '<' :: '/' :: 'l' :: 'i' :: '>' :: rest := rfl
  rw [hE, takeWhile_append_lt hx_lt, dropWhile_append_lt hx_lt]
  rw [if_pos ⟨hx_ne, by rw [show ('<' :: '/' :: 'l' :: 'i' :: '>' :: rest)
      = liClose ++ rest from rfl]; exact prefOf_append_self _ _⟩]
  rfl

theorem subst2go_item_ne {u t : List Char} {v x : String} (rest : List Char)
    (hu_q : '"' ∉ u) (hu_gt : '>' ∉ u) (hv : urlOk v) (hx : textOk x)
    (huv : u ≠ v.data) :
    subst2go u t (renderItem (v, x) ++ rest)
      = renderItem (v, x) ++ subst2go u t rest := by
  apply subst2go_skip_block
  intro pre suf hsplit hne
  have hsuf : suf <:+ renderItem (v, x) := ⟨pre, hsplit.symm⟩
  have hform : renderItem (v, x)
      = dqAttr ++ (v.data ++ ('"' :: '>' :: (x.data ++ liClose))) := by
    simp [renderItem, pre2, List.append_assoc]
  rw [hform] at hsuf
  exact tryMatch2_none_in_item rest hu_q hu_gt hv.1 hx.2.1 huv hsuf hne

theorem subst2go_item_eq {t : List Char} {v x : String} (rest : List Char)
    (hx_ne : x.data ≠ []) (hx_lt : '<' ∉ x.data) :
    subst2go v.data t (renderItem (v, x) ++ rest)
      = (pre2 v.data ++ t ++ liClose) ++ subst2go v.data t rest := by
  have hform : renderItem (v, x) ++ rest
      = pre2 v.data ++ (x.data ++ (liClose ++ rest)) := by
    simp [renderItem, List.append_assoc]
  rw [hform]
  have hm := tryMatch2_item_head (u := v.data) rest hx_ne hx_lt
  have hs : pre2 v.data ++ (x.data ++ (liClose ++ rest)) ≠ [] := by
    intro h
    have := congrArg List.length h
    simp [pre2_cons] at this
  rw [subst2go_match hm hs]
  rfl

/-- The structural effect of one `(url, title)` substitution on a list
of rendered items: every item with that exact URL has its inner text
replaced by the title. -/
def patchItems (u t : String) (items : List (String × String)) :
    List (String × String) :=
  items.map fun it => if it.1 = u then (it.1, t) else it

theorem renderItems_cons (it : String × String) (l : List (String × String)) :
    renderItems (it :: l) = renderItem it ++ renderItems l := by
  simp [renderItems]

theorem subst2go_render {u t : String} (items : List (String × String))
    (hu : urlOk u)
    (hitems : ∀ it ∈ items, urlOk it.1 ∧ textOk it.2) :
    subst2go u.data t.data (renderItems items)
      = renderItems (patchItems u t items) := by
  induction items with
  | nil => simp [renderItems, patchItems, subst2go_nil]
  | cons it rest ih =>
    have hit := hitems it (by simp)
    have hrest : ∀ it' ∈ rest, urlOk it'.1 ∧ textOk it'.2 :=
      fun it' h => hitems it' (List.mem_cons_of_mem _ h)
    obtain ⟨v, x⟩ := it
    rw [renderItems_cons]
    by_cases hv : v = u
    · subst hv
      rw [subst2go_item_eq (renderItems rest) hit.2.1 hit.2.2.2, ih hrest]
      rw [show patchItems v t ((v, x) :: rest) = (v, t) :: patchItems v t rest
        from by simp [patchItems]]
      rw [renderItems_cons]
      rfl
    · have huv : u.data ≠ v.data := fun h => hv (str_data_inj h).symm
      rw [subst2go_item_ne (renderItems rest) hu.1 hu.2.2 (hitems (v, x)
        (by simp)).1 hit.2 huv, ih hrest]
      rw [show patchItems u t ((v, x) :: rest) = (v, x) :: patchItems u t rest
        from by simp [patchItems, hv]]
      rw [renderItems_cons]

/-- No position in the list starts `<s`, so the span/audio pattern of
`update_html_file` can never match. -/
def noLtS : List Char → Bool
  | [] => true
  | [_] => true
  | a :: b :: cs => !(a = '<' && b = 's') && noLtS (b :: cs)

theorem prefOf_cons_of_ne {p c : Char} {ps cs : List Char} (h : p ≠ c) :
    prefOf (p :: ps) (c :: cs) = false := by
  simp [prefOf, h]

theorem tryMatch1_none_head {u : List Char} {c : Char} (hc : c ≠ '<')
    (T : List Char) : tryMatch1 u (c :: T) = none := by
  have hp : prefOf span1 (c :: T) = false := by
    rw [show span1 = '<' :: span1.tail from rfl]
    exact prefOf_cons_of_ne (Ne.symm hc)
  simp [tryMatch1, hp]

theorem tryMatch1_none_second {u : List Char} {b : Char} (hb : b ≠ 's')
    (T : List Char) : tryMatch1 u ('<' :: b :: T) = none := by
  have hp : prefOf span1 ('<' :: b :: T) = false := by
    rw [show span1 = '<' :: 's' :: span1.tail.tail from rfl]
    simp [prefOf, Ne.symm hb]
  simp [tryMatch1, hp]

theorem tryMatch1_none_single {u : List Char} {c : Char} :
    tryMatch1 u [c] = none := by
  by_cases hc : c = '<'
  · subst hc
    have hp : prefOf span1 ['<'] = false := by
      rw [show span1 = '<' :: 's' :: span1.tail.tail from rfl]
      simp [prefOf]
    simp [tryMatch1, hp]
  · exact tryMatch1_none_head hc []

theorem subst1go_cons_none {u : List Char} (t : List Char) {c : Char}
    {cs : List Char} (h : tryMatch1 u (c :: cs) = none) :
    subst1go u t (c :: cs) = c :: subst1go u t cs := by
  rw [subst1go, h]

theorem noLtS_tail {c : Char} {cs : List Char} (h : noLtS (c :: cs) = true) :
    noLtS cs = true := by
  cases cs with
  | nil => rfl
  | cons b cs' =>
    simp only [noLtS, Bool.and_eq_true] at h
    exact h.2

theorem subst1go_noop {u t : List Char} : ∀ {cs : List Char},
    noLtS cs = true → subst1go u t cs = cs := by
  intro cs
  induction cs with
  | nil => intro _; rw [subst1go]
  | cons c cs' ih =>
    intro h
    have hnone : tryMatch1 u (c :: cs') = none := by
      cases cs' with
      | nil => exact tryMatch1_none_single
      | cons b cs'' =>
        by_cases hc : c = '<'
        · subst hc
          simp only [noLtS, Bool.and_eq_true, Bool.not_eq_true'] at h
          have hb : b ≠ 's' := by
            intro hbs
            subst hbs
            simp at h
          exact tryMatch1_none_second hb _
        · exact tryMatch1_none_head hc _
    rw [subst1go_cons_none t hnone, ih (noLtS_tail h)]

theorem noLtS_cons_of_ne {c : Char} (hc : c ≠ '<') (cs : List Char) :
    noLtS (c :: cs) = noLtS cs := by
  cases cs with
  | nil => simp [noLtS]
  | cons b cs' => simp [noLtS, hc]

theorem noLtS_lt_cons {b : Char} (hb : b ≠ 's') (cs : List Char) :
    noLtS ('<' :: b :: cs) = noLtS (b :: cs) := by
  simp [noLtS, hb]

theorem noLtS_append_of_no_lt {a : List Char} (ha : '<' ∉ a) {b : List Char}
    (hb : noLtS b = true) : noLtS (a ++ b) = true := by
  induction a with
  | nil => simpa using hb
  | cons c a' ih =>
    have hc : c ≠ '<' := fun h => ha (by simp [h])
    rw [List.cons_append, noLtS_cons_of_ne hc]
    exact ih (fun h => ha (by simp [h]))

theorem noLtS_liClose {r : List Char} (hr : noLtS r = true) :
    noLtS (liClose ++ r) = true := by
  rw [show liClose ++ r = '<' :: '/' :: 'l' :: 'i' :: '>' :: r from rfl]
  rw [noLtS_lt_cons (by decide), noLtS_cons_of_ne (by decide),
    noLtS_cons_of_ne (by decide), noLtS_cons_of_ne (by decide),
    noLtS_cons_of_ne (by decide)]
  exact hr

theorem noLtS_item {v x : String} (hv : urlOk v) (hx : textOk x)
    {r : List Char} (hr : noLtS r = true) :
    noLtS (renderItem (v, x) ++ r) = true := by
  have hform : renderItem (v, x) ++ r
      = dqAttr ++ (v.data ++ ('"' :: '>'
        :: (x.data ++ (liClose ++ r)))) := by
    simp [renderItem, pre2, List.append_assoc]
  rw [hform]
  apply noLtS_append_of_no_lt (by decide)
  apply noLtS_append_of_no_lt hv.2.1
  rw [show ('"' :: '>' :: (x.data ++ (liClose ++ r)))
      = ['"', '>'] ++ (x.data ++ (liClose ++ r)) from rfl]
  apply noLtS_append_of_no_lt (by decide)
  apply noLtS_append_of_no_lt hx.2.2
  exact noLtS_liClose hr

theorem noLtS_renderItems (items : List (String × String))
    (hitems : ∀ it ∈ items, urlOk it.1 ∧ textOk it.2) :
    noLtS (renderItems items) = true := by
  induction items with
  | nil => rfl
  | cons it rest ih =>
    obtain ⟨v, x⟩ := it
    have hit := hitems (v, x) (by simp)
    rw [renderItems_cons]
    exact noLtS_item hit.1 hit.2
      (ih fun it' h => hitems it' (List.mem_cons_of_mem _ h))

theorem subst1go_render (u t : List Char) (items : List (String × String))
    (hitems : ∀ it ∈ items, urlOk it.1 ∧ textOk it.2) :
    subst1go u t (renderItems items) = renderItems items :=
  subst1go_noop (noLtS_renderItems items hitems)

theorem patchItems_ok {u t : String} (ht : textOk t)
    {items : List (String × String)}
    (hitems : ∀ it ∈ items, urlOk it.1 ∧ textOk it.2) :
    ∀ it ∈ patchItems u t items, urlOk it.1 ∧ textOk it.2 := by
  intro it hmem
  simp only [patchItems, List.mem_map] at hmem
  obtain ⟨it0, h0, heq⟩ := hmem
  by_cases h : it0.1 = u
  · rw [← heq, if_pos h]
    exact ⟨(hitems it0 h0).1, ht⟩
  · rw [← heq, if_neg h]
    exact hitems it0 h0

theorem patchItems_id {u t : String} {items : List (String × String)}
    (h : ∀ it ∈ items, it.1 ≠ u) : patchItems u t items = items := by
  induction items with
  | nil => rfl
  | cons it rest ih =>
    have hit : it.1 ≠ u := h it (by simp)
    simp only [patchItems, List.map_cons, if_neg hit]
    rw [show List.map (fun it => if it.1 = u then (it.1, t) else it) rest
      = patchItems u t rest from rfl]
    rw [ih fun it' h' => h it' (List.mem_cons_of_mem _ h')]

theorem foldl_applyPair_render (mapping : List (String × String)) :
    ∀ items : List (String × String),
    (∀ it ∈ items, urlOk it.1 ∧ textOk it.2) →
    (∀ ut ∈ mapping, urlOk ut.1 ∧ textOk ut.2) →
    mapping.foldl (fun c ut => applyPair c ut.1.data ut.2.data)
        (renderItems items)
      = renderItems (mapping.foldl (fun its ut => patchItems ut.1 ut.2 its) items) := by
  induction mapping with
  | nil => intro items _ _; rfl
  | cons ut rest ih =>
    intro items hitems hmap
    simp only [List.foldl_cons]
    have hut := hmap ut (by simp)
    have happ : applyPair (renderItems items) ut.1.data ut.2.data
        = renderItems (patchItems ut.1 ut.2 items) := by
      unfold applyPair
      rw [subst1go_render _ _ items hitems, subst2go_render items hut.1 hitems]
    rw [happ]
    exact ih (patchItems ut.1 ut.2 items) (patchItems_ok hut.2 hitems)
      (fun ut' h => hmap ut' (List.mem_cons_of_mem _ h))

/-- C9 (confirmed).  Patcher frame property, over documents made of
`data-audio` list items (URLs and inner texts quote- and angle-free, as
in the reference HTML): patching with a URL-to-title mapping replaces
exactly the inner text of the items whose `data-audio` URL equals a
mapped URL — every other item's text is untouched — and a URL with zero
matches in the document is silently skipped, changing nothing. -/
theorem C9_patch_frame :
    (∀ (items mapping : List (String × String)),
      (∀ it ∈ items, urlOk it.1 ∧ textOk it.2) →
      (∀ ut ∈ mapping, urlOk ut.1 ∧ textOk ut.2) →
      update_html_content mapping ⟨renderItems items⟩
        = ⟨renderItems
            (mapping.foldl (fun its ut => patchItems ut.1 ut.2 its) items)⟩)
    ∧ (∀ (items : List (String × String)) (u t : String),
      (∀ it ∈ items, urlOk it.1 ∧ textOk it.2) →
      urlOk u → textOk t → (∀ it ∈ items, it.1 ≠ u) →
      update_html_content [(u, t)] ⟨renderItems items⟩ = ⟨renderItems items⟩) := by
  have h1 : ∀ (items mapping : List (String × String)),
      (∀ it ∈ items, urlOk it.1 ∧ textOk it.2) →
      (∀ ut ∈ mapping, urlOk ut.1 ∧ textOk ut.2) →
      update_html_content mapping ⟨renderItems items⟩
        = ⟨renderItems
            (mapping.foldl (fun its ut => patchItems ut.1 ut.2 its) items)⟩ := by
    intro items mapping hitems hmap
    exact congrArg String.mk (foldl_applyPair_render mapping items hitems hmap)
  refine ⟨h1, ?_⟩
  intro items u t hitems hu ht hno
  have h := h1 items [(u, t)] hitems (by
    intro ut hmem
    rw [List.mem_singleton] at hmem
    subst hmem
    exact ⟨hu, ht⟩)
  rw [h, show List.foldl (fun its ut => patchItems ut.1 ut.2 its) items [(u, t)]
    = patchItems u t items from rfl, patchItems_id hno]

/-- C9 witness: the spec's example — patching replaces only the item for
`01+secret.mp3` with "A Secret Confession" and leaves the other URL's
text unchanged; an unknown URL changes nothing. -/
theorem C9_patch_frame_witness :
    update_html_content
        [("https://host/randombmir/random/01+secret.mp3", "A Secret Confession")]
        ⟨renderItems [("https://host/randombmir/random/01+secret.mp3", "old"),
          ("https://host/randombmir/random/02+beats.mp3", "Another one")]⟩
      = ⟨renderItems
          [("https://host/randombmir/random/01+secret.mp3", "A Secret Confession"),
           ("https://host/randombmir/random/02+beats.mp3", "Another one")]⟩
    ∧ update_html_content [("https://host/randombmir/random/99+none.mp3", "T")]
        ⟨renderItems [("https://host/randombmir/random/01+secret.mp3", "old"),
          ("https://host/randombmir/random/02+beats.mp3", "Another one")]⟩
      = ⟨renderItems [("https://host/randombmir/random/01+secret.mp3", "old"),
          ("https://host/randombmir/random/02+beats.mp3", "Another one")]⟩ := by
  constructor
  · have h := C9_patch_frame.1
      [("https://host/randombmir/random/01+secret.mp3", "old"),
       ("https://host/randombmir/random/02+beats.mp3", "Another one")]
      [("https://host/randombmir/random/01+secret.mp3", "A Secret Confession")]
      (by decide) (by decide)
    rw [h]
    rfl
  · exact C9_patch_frame.2
      [("https://host/randombmir/random/01+secret.mp3", "old"),
       ("https://host/randombmir/random/02+beats.mp3", "Another one")]
      "https://host/randombmir/random/99+none.mp3" "T"
      (by decide) (by decide) (by decide) (by decide)

example : scanUrls srcAttr
    ("x src=\"https://s3-us-west-1.amazonaws.com/randombmir/a/b.mp3\" y").data
    = [("https://s3-us-west-1.amazonaws.com/randombmir/a/b.mp3").data] := by decide
example : scanUrls srcAttr
    ("src=\"https://s3-us-west-1.amazonaws.com/randombmir/x.wav\"").data = [] := by
  decide
example : scanUrls srcAttr
    ("src=\"https://s3-us-west-1.amazonaws.com/randombmir/x.mp3").data = [] := by
  decide
example : scanUrls srcAttr
    ("src=\"https://s3-us-west-1.amazonaws.com/randombmir/.mp3\"").data = [] := by
  decide
example : scanUrls srcAttr
    ("src=\"https://s3-us-west-1.amazonaws.com/randombmir/a.mp3x.mp3\"").data
    = [("https://s3-us-west-1.amazonaws.com/randombmir/a.mp3x.mp3").data] := by
  decide

/-! ## Claim C10 -/

/-- C10 (confirmed).  `extract_audio_urls_from_html` returns exactly the
union of the matches of the `src="..."` pattern and of the
`data-audio="..."` pattern over the raw text, with duplicates removed
and the result sorted in (lexicographic) order. -/
theorem C10_extract_urls_sorted_union (content : String) :
    List.Sorted (· ≤ ·) (extract_audio_urls_from_html content)
    ∧ (extract_audio_urls_from_html content).Nodup
    ∧ ∀ s : String,
      s ∈ extract_audio_urls_from_html content
        ↔ (s ∈ (scanUrls srcAttr content.data).map String.mk
          ∨ s ∈ (scanUrls dataAttr content.data).map String.mk) := by
  have hdef : extract_audio_urls_from_html content
      = List.insertionSort (· ≤ ·)
          (((scanUrls srcAttr content.data).map String.mk
            ++ (scanUrls dataAttr content.data).map String.mk).dedup) := rfl
  rw [hdef]
  refine ⟨List.sorted_insertionSort _ _, ?_, ?_⟩
  · exact (List.perm_insertionSort _ _).nodup_iff.mpr (List.nodup_dedup _)
  · intro s
    rw [(List.perm_insertionSort _ _).mem_iff, List.mem_dedup, List.mem_append]
